import Mathlib

/-!
Shallow embedding of `packages/vue-language-server/src/features/languageFeatures.ts`
(the request dispatch and correlation layer of the language server).

Conventions of the embedding:
* JavaScript `undefined`/nullish results of a call are `Option.none`.
* A thrown exception / rejected promise is `Except.error ()`.
* The free-form `data` fields carried by two-phase protocol items are modelled
  by `JsValue`, a small model of JSON-like JavaScript values.
* Engine ("language service") capabilities are opaque functions supplied as
  parameters; this layer only dispatches to them.
-/

namespace LanguageFeatures

/-! ## JavaScript values

Model of the JavaScript values that can sit in an item's free-form `data`
field: primitive values, `null`, and plain objects (ordered key/value lists,
keys unique as in a JS object). -/

inductive JsValue where
  | str (s : String)
  | num (n : Int)
  | boolean (b : Bool)
  | null
  | obj (fields : List (String × JsValue))

/-- Property update `o[k] = v` on a JS object: overwrite the existing entry in
place if the key is present, otherwise append the new entry. -/
def setKey : List (String × JsValue) → String → JsValue → List (String × JsValue)
  | [], k, v => [(k, v)]
  | (k', v') :: rest, k, v =>
    if k' = k then (k, v) :: rest else (k', v') :: setKey rest k v

/-- Property read `o[k]` on a JS object (`none` is JavaScript `undefined`). -/
def lookupKey : List (String × JsValue) → String → Option JsValue
  | [], _ => none
  | (k', v') :: rest, k => if k' = k then some v' else lookupKey rest k

/-- JavaScript truthiness of a value. -/
def jsTruthy : JsValue → Bool
  | .str s => s ≠ ""
  | .num n => n ≠ 0
  | .boolean b => b
  | .null => false
  | .obj _ => true

/-! ## Semantic token encoding (`buildTokens`, source lines 342-349) -/

/-- `vue.SemanticToken`: the 5-tuple `[line, character, length, tokenType,
tokenModifiers]` produced by the engine. -/
structure SemTok where
  line : Nat
  char : Nat
  len : Nat
  typ : Nat
  mods : Nat
deriving DecidableEq, Repr

/-- The sort key relevant to the comparator: `(line, character)`. -/
def tokKey (t : SemTok) : Nat × Nat := (t.line, t.char)

/-- The comparator `(a, b) => a[0] - b[0] === 0 ? a[1] - b[1] : a[0] - b[0]`
as a Boolean "less or equal": ascending by line, ties broken by character. -/
def tokLE (a b : SemTok) : Bool :=
  if a.line = b.line then decide (a.char ≤ b.char) else decide (a.line < b.line)

/-- The loop `for (const token of sortedTokens) builder.push(...token)` of
`vscode.SemanticTokensBuilder`: the first token is emitted with absolute line
and character (equivalently, deltas from `(0, 0)`), every later token with its
line delta from the previous token and its character delta when it stays on
the previous token's line, absolute character otherwise. -/
def encodeFrom : Nat → Nat → List SemTok → List Int
  | _, _, [] => []
  | prevLine, prevChar, t :: rest =>
    let dLine : Int := (t.line : Int) - (prevLine : Int)
    let dChar : Int :=
      if t.line = prevLine then (t.char : Int) - (prevChar : Int) else (t.char : Int)
    dLine :: dChar :: (t.len : Int) :: (t.typ : Int) :: (t.mods : Int) ::
      encodeFrom t.line t.char rest

/-- `buildTokens` (source lines 342-349): sort the token tuples by the
comparator, then delta-encode them into the flat data array. -/
def buildTokens (tokens : List SemTok) : List Int :=
  encodeFrom 0 0 (tokens.mergeSort tokLE)

theorem tokLE_total (a b : SemTok) : (tokLE a b || tokLE b a) = true := by
  simp only [tokLE]
  by_cases h : a.line = b.line
  · rw [if_pos h, if_pos h.symm]
    simp only [Bool.or_eq_true, decide_eq_true_eq]
    omega
  · rw [if_neg h, if_neg fun hh => h hh.symm]
    simp only [Bool.or_eq_true, decide_eq_true_eq]
    omega

theorem tokLE_trans (a b c : SemTok) :
    tokLE a b = true → tokLE b c = true → tokLE a c = true := by
  unfold tokLE
  intro h1 h2
  split at h1 <;> split at h2 <;> split <;>
    simp only [decide_eq_true_eq] at h1 h2 ⊢ <;> omega

theorem tokLE_antisymm_key {a b : SemTok}
    (h1 : tokLE a b = true) (h2 : tokLE b a = true) : tokKey a = tokKey b := by
  simp only [tokLE] at h1 h2
  by_cases h : a.line = b.line
  · rw [if_pos h] at h1
    rw [if_pos h.symm] at h2
    simp only [decide_eq_true_eq] at h1 h2
    simp only [tokKey, Prod.mk.injEq]
    omega
  · rw [if_neg h] at h1
    rw [if_neg fun hh => h hh.symm] at h2
    simp only [decide_eq_true_eq] at h1 h2
    omega

/-- Two sorted lists of tokens that are permutations of each other and whose
`(line, character)` keys are pairwise distinct are equal. -/
theorem sorted_nodupkey_unique {l₁ : List SemTok} :
    ∀ {l₂ : List SemTok}, l₁.Perm l₂ →
      l₁.Pairwise (fun a b => tokLE a b = true) →
      l₂.Pairwise (fun a b => tokLE a b = true) →
      (l₁.map tokKey).Nodup → l₁ = l₂ := by
  induction l₁ with
  | nil =>
    intro l₂ hp _ _ _
    exact (hp.symm.eq_nil).symm
  | cons a t ih =>
    intro l₂ hp hs₁ hs₂ hnd
    cases l₂ with
    | nil => exact absurd hp.eq_nil (by simp)
    | cons b t₂ =>
      have hs₁' := List.pairwise_cons.mp hs₁
      have hs₂' := List.pairwise_cons.mp hs₂
      have hab : a = b := by
        by_contra hne
        have haIn : a ∈ b :: t₂ := hp.mem_iff.mp (List.mem_cons_self a t)
        have haT₂ : a ∈ t₂ := by
          cases List.mem_cons.mp haIn with
          | inl h => exact absurd h hne
          | inr h => exact h
        have hbIn : b ∈ a :: t := hp.symm.mem_iff.mp (List.mem_cons_self b t₂)
        have hbT : b ∈ t := by
          cases List.mem_cons.mp hbIn with
          | inl h => exact absurd h.symm hne
          | inr h => exact h
        have h1 : tokLE a b = true := hs₁'.1 b hbT
        have h2 : tokLE b a = true := hs₂'.1 a haT₂
        have hkey : tokKey a = tokKey b := tokLE_antisymm_key h1 h2
        exact hne (List.inj_on_of_nodup_map hnd (List.mem_cons_self a t)
          (List.mem_cons_of_mem a hbT) hkey)
      subst hab
      have hnd' : (t.map tokKey).Nodup := by
        simp only [List.map_cons, List.nodup_cons] at hnd
        exact hnd.2
      have := ih hp.cons_inv hs₁'.2 hs₂'.2 hnd'
      rw [this]

/-- Claim C4: the semantic-token encoder is deterministic: for any two
permutations of the same finite sequence of token tuples with pairwise
distinct `(line, character)` keys, `buildTokens` produces identical encoded
output (the delta encoding of the tuples sorted by line then character); in
particular encoding `[(0,0,3,T,0), (0,5,2,T,0)]` yields a first entry with
zero line and character deltas and a second entry with zero line delta and
character delta 5. -/
theorem buildTokens_deterministic (l₁ l₂ : List SemTok) (hp : l₁.Perm l₂)
    (hnd : (l₁.map tokKey).Nodup) :
    buildTokens l₁ = buildTokens l₂ ∧
      ∀ T : Nat,
        buildTokens [⟨0, 0, 3, T, 0⟩, ⟨0, 5, 2, T, 0⟩] =
          [0, 0, 3, (T : Int), 0, 0, 5, 2, (T : Int), 0] := by
  constructor
  · unfold buildTokens
    congr 1
    apply sorted_nodupkey_unique
    · exact (List.mergeSort_perm l₁ tokLE).trans (hp.trans (List.mergeSort_perm l₂ tokLE).symm)
    · exact List.sorted_mergeSort tokLE_trans tokLE_total l₁
    · exact List.sorted_mergeSort tokLE_trans tokLE_total l₂
    · exact ((List.mergeSort_perm l₁ tokLE).map tokKey).nodup_iff.mpr hnd
  · intro T
    unfold buildTokens
    rw [List.mergeSort_of_sorted (by simp [tokLE])]
    simp [encodeFrom]

/-- Witness for C4 at a concrete pair of permuted token lists. -/
theorem buildTokens_deterministic_witness :
    buildTokens [⟨0, 5, 2, 7, 0⟩, ⟨0, 0, 3, 7, 0⟩] =
      buildTokens [⟨0, 0, 3, 7, 0⟩, ⟨0, 5, 2, 7, 0⟩] :=
  (buildTokens_deterministic [⟨0, 5, 2, 7, 0⟩, ⟨0, 0, 3, 7, 0⟩]
    [⟨0, 0, 3, 7, 0⟩, ⟨0, 5, 2, 7, 0⟩] (by decide) (by decide)).1

/-! ## Protocol data types -/

abbrev Pos := Nat × Nat

abbrev TextRange := Pos × Pos

/-- A completion item's text edit: either a plain `vscode.TextEdit` or a
combined `vscode.InsertReplaceEdit`. -/
inductive CompletionEdit where
  | replace (range : TextRange) (newText : String)
  | insertReplace (insert : TextRange) (replaceRange : TextRange) (newText : String)

structure CompletionItem where
  label : String
  textEdit : Option CompletionEdit
  data : Option JsValue

structure CompletionList where
  isIncomplete : Bool
  items : List CompletionItem

structure CodeLens where
  range : TextRange
  data : Option JsValue

structure CodeAction where
  title : String
  data : Option JsValue

structure CallHierarchyItem where
  name : String
  uri : String
  data : Option JsValue

/-- `OptionalVersionedTextDocumentIdentifier`: `version` is `number | null`. -/
structure DocId where
  uri : String
  version : Option Int
deriving DecidableEq

structure TextEdit where
  range : TextRange
  newText : String
deriving DecidableEq

/-- One entry of `WorkspaceEdit.documentChanges`: a `vscode.TextDocumentEdit`
(the only kind rewritten by the rename path) or a file operation
(create/rename/delete), which `vscode.TextDocumentEdit.is` rejects. -/
inductive DocChange where
  | textDocumentEdit (textDocument : DocId) (edits : List TextEdit)
  | fileOperation (kind : String) (uri : String)
deriving DecidableEq

structure WorkspaceEdit where
  documentChanges : Option (List DocChange)
deriving DecidableEq

/-! ## The engine ("language service") capability surface

Each capability is an opaque external computation; a `none` result models a
JavaScript `undefined`/`null` "no result". `getEditsForFileRename` may also
throw (rejected promise), modelled by `Except.error ()`. -/

structure LanguageService where
  doComplete : String → Pos → Option CompletionList
  doCompletionResolve : CompletionItem → Option Pos → Option CompletionItem
  doHover : String → Pos → Option String
  getSignatureHelp : String → Pos → Option String
  doPrepareRename : String → Pos → Option TextRange
  doRename : String → Pos → String → Option WorkspaceEdit
  doCodeLens : String → Option (List CodeLens)
  doCodeLensResolve : CodeLens → Option CodeLens
  doCodeActions : String → TextRange → Option (List CodeAction)
  doCodeActionResolve : CodeAction → Option CodeAction
  findReferences : String → Pos → Option (List String)
  findImplementations : String → Pos → Option (List String)
  findDefinition : String → Pos → Option (List String)
  findTypeDefinition : String → Pos → Option (List String)
  findDocumentHighlights : String → Pos → Option (List String)
  findDocumentLinks : String → Option (List String)
  findWorkspaceSymbols : String → List String
  chDoPrepare : String → Pos → Option (List CallHierarchyItem)
  chGetIncomingCalls : CallHierarchyItem → Option (List String)
  chGetOutgoingCalls : CallHierarchyItem → Option (List String)
  getSemanticTokens : String → Option TextRange → Option (List SemTok)
  getInlayHints : String → TextRange → Option (List String)
  getEditsForFileRename : String → String → Except Unit (Option WorkspaceEdit)
  doAutoInsert : String → Pos → Option String

/-! ## Engine resolution and the generic dispatcher -/

structure Project where
  languageService : LanguageService

/-- The object returned by `projects.getProject(uri)`: `{ project?: Project }`. -/
structure ProjectMatch where
  project : Option Project

/-- `getLanguageService` (source lines 350-353):
`(await projects.getProject(uri))?.project?.getLanguageService()`. -/
def getLanguageService (getProject : String → Option ProjectMatch) (uri : String) :
    Option LanguageService :=
  match getProject uri with
  | none => none
  | some m =>
    match m.project with
    | none => none
    | some p => some p.languageService

/-- `worker` (source lines 336-341): resolve the engine for `uri`; when none
is found the callback is never invoked and the result is `undefined`. -/
def worker {T : Type} (getProject : String → Option ProjectMatch) (uri : String)
    (cb : LanguageService → T) : Option T :=
  match getLanguageService getProject uri with
  | some vueLs => some (cb vueLs)
  | none => none

/-! ## Request handlers -/

/-- The insert/replace downgrade applied to one completion item (lines 26-30):
an `InsertReplaceEdit` is rewritten to `TextEdit.replace(insert, newText)`,
any other edit (or no edit) is left alone. -/
def downgradeItem (item : CompletionItem) : CompletionItem :=
  match item.textEdit with
  | some (.insertReplace insert _ newText) =>
    { item with textEdit := some (.replace insert newText) }
  | _ => item

/-- `connection.onCompletion` (lines 17-34). `insertReplaceSupport` is the
client capability `completionItem?.insertReplaceSupport ?? false`. -/
def onCompletion (getProject : String → Option ProjectMatch)
    (insertReplaceSupport : Option Bool) (uri : String) (pos : Pos) :
    Option CompletionList :=
  (worker getProject uri fun vueLs =>
    let list := vueLs.doComplete uri pos
    if insertReplaceSupport.getD false then list
    else list.map fun l => { l with items := l.items.map downgradeItem }).join

/-- Reading `(item.data as { uri?: string } | undefined)?.uri`: the `uri`
property of the data field, `none` (undefined) when the field is missing or
not an object. -/
def dataUri (data : Option JsValue) : Option JsValue :=
  match data with
  | some (.obj fields) => lookupKey fields "uri"
  | _ => none

/-- The active-selection correlation of `onCompletionResolve` (lines 42-45):
the live cursor position is used only when the active editor's document
matches the item's recorded document case-insensitively. -/
def resolveNewPosition (activeSel : Option (String × Pos)) (uri : String) : Option Pos :=
  match activeSel with
  | some (selUri, pos) => if selUri.toLower = uri.toLower then some pos else none
  | none => none

/-- `connection.onCompletionResolve` (lines 35-50). A missing or falsy
recovered uri short-circuits to the input item. A truthy non-string uri is
passed verbatim to the resolver, where it can match no project (project keys
are strings), so the request falls back to the input item through `?? item`. -/
def onCompletionResolve (getProject : String → Option ProjectMatch)
    (activeSel : Option (String × Pos)) (item : CompletionItem) : CompletionItem :=
  match dataUri item.data with
  | none => item
  | some v =>
    if jsTruthy v then
      match v with
      | .str uri =>
        (worker getProject uri fun vueLs =>
          (vueLs.doCompletionResolve item (resolveNewPosition activeSel uri)).getD item).getD
          item
      | _ => item
    else item

/-- `connection.onHover` (lines 51-55). -/
def onHover (getProject : String → Option ProjectMatch) (uri : String) (pos : Pos) :
    Option String :=
  (worker getProject uri fun vueLs => vueLs.doHover uri pos).join

/-- `connection.onSignatureHelp` (lines 56-60). -/
def onSignatureHelp (getProject : String → Option ProjectMatch) (uri : String) (pos : Pos) :
    Option String :=
  (worker getProject uri fun vueLs => vueLs.getSignatureHelp uri pos).join

/-- `connection.onPrepareRename` (lines 61-65). -/
def onPrepareRename (getProject : String → Option ProjectMatch) (uri : String) (pos : Pos) :
    Option TextRange :=
  (worker getProject uri fun vueLs => vueLs.doPrepareRename uri pos).join

/-- `connection.onRenameRequest` (lines 66-70). -/
def onRenameRequest (getProject : String → Option ProjectMatch) (uri : String) (pos : Pos)
    (newName : String) : Option WorkspaceEdit :=
  (worker getProject uri fun vueLs => vueLs.doRename uri pos newName).join

/-- `connection.onCodeLens` (lines 71-75). -/
def onCodeLens (getProject : String → Option ProjectMatch) (uri : String) :
    Option (List CodeLens) :=
  (worker getProject uri fun vueLs => vueLs.doCodeLens uri).join

/-- `connection.onCodeLensResolve` (lines 76-86). -/
def onCodeLensResolve (getProject : String → Option ProjectMatch) (codeLens : CodeLens) :
    CodeLens :=
  match dataUri codeLens.data with
  | none => codeLens
  | some v =>
    if jsTruthy v then
      match v with
      | .str uri =>
        (worker getProject uri fun vueLs =>
          (vueLs.doCodeLensResolve codeLens).getD codeLens).getD codeLens
      | _ => codeLens
    else codeLens

/-- Attachment step of `connection.onCodeAction` (lines 138-145): merge a
`uri` key into an existing object `data`, otherwise (undefined, `null` —
which is falsy — or a primitive) replace the field with `{ uri }`. -/
def caAttach (uri : String) (codeAction : CodeAction) : CodeAction :=
  match codeAction.data with
  | some (.obj fields) =>
    { codeAction with data := some (.obj (setKey fields "uri" (.str uri))) }
  | _ => { codeAction with data := some (.obj [("uri", .str uri)]) }

/-- `connection.onCodeAction` (lines 135-148): fetch the code actions
(defaulting to `[]`), stamping each one's `data` with the requesting
document's uri. -/
def onCodeAction (getProject : String → Option ProjectMatch) (uri : String)
    (range : TextRange) : Option (List CodeAction) :=
  worker getProject uri fun vueLs =>
    ((vueLs.doCodeActions uri range).getD []).map (caAttach uri)

/-- `connection.onCodeActionResolve` (lines 149-159); the engine call has no
inner fallback here, so a nullish engine result also falls back through the
outer `?? codeAction`. -/
def onCodeActionResolve (getProject : String → Option ProjectMatch) (codeAction : CodeAction) :
    CodeAction :=
  match dataUri codeAction.data with
  | none => codeAction
  | some v =>
    if jsTruthy v then
      match v with
      | .str uri =>
        ((worker getProject uri fun vueLs => vueLs.doCodeActionResolve codeAction).join).getD
          codeAction
      | _ => codeAction
    else codeAction

/-- `connection.onReferences` (lines 160-164). -/
def onReferences (getProject : String → Option ProjectMatch) (uri : String) (pos : Pos) :
    Option (List String) :=
  (worker getProject uri fun vueLs => vueLs.findReferences uri pos).join

/-- `connection.onImplementation` (lines 165-169). -/
def onImplementation (getProject : String → Option ProjectMatch) (uri : String) (pos : Pos) :
    Option (List String) :=
  (worker getProject uri fun vueLs => vueLs.findImplementations uri pos).join

/-- `connection.onDefinition` (lines 170-174). -/
def onDefinition (getProject : String → Option ProjectMatch) (uri : String) (pos : Pos) :
    Option (List String) :=
  (worker getProject uri fun vueLs => vueLs.findDefinition uri pos).join

/-- `connection.onTypeDefinition` (lines 175-179). -/
def onTypeDefinition (getProject : String → Option ProjectMatch) (uri : String) (pos : Pos) :
    Option (List String) :=
  (worker getProject uri fun vueLs => vueLs.findTypeDefinition uri pos).join

/-- `connection.onDocumentHighlight` (lines 180-184). -/
def onDocumentHighlight (getProject : String → Option ProjectMatch) (uri : String) (pos : Pos) :
    Option (List String) :=
  (worker getProject uri fun vueLs => vueLs.findDocumentHighlights uri pos).join

/-- `connection.onDocumentLinks` (lines 185-189). -/
def onDocumentLinks (getProject : String → Option ProjectMatch) (uri : String) :
    Option (List String) :=
  (worker getProject uri fun vueLs => vueLs.findDocumentLinks uri).join

/-- `connection.languages.inlayHint.on` (lines 266-270). -/
def inlayHintOn (getProject : String → Option ProjectMatch) (uri : String)
    (range : TextRange) : Option (List String) :=
  (worker getProject uri fun vueLs => vueLs.getInlayHints uri range).join

/-- The `AutoInsertRequest` handler (lines 330-334). -/
def autoInsertOn (getProject : String → Option ProjectMatch) (uri : String) (pos : Pos) :
    Option String :=
  (worker getProject uri fun vueLs => vueLs.doAutoInsert uri pos).join

/-! ## Call hierarchy -/

/-- Attachment step of `callHierarchy.onPrepare` (lines 214-217):
`if (typeof item.data !== 'object') item.data = {}` followed by
`(item.data as any).__uri = ...`. Because `typeof null === 'object'`, a
`null` data field is not re-initialised and the subsequent property
assignment on `null` throws a `TypeError` (`Except.error`). -/
def chAttach (uri : String) (item : CallHierarchyItem) : Except Unit CallHierarchyItem :=
  match item.data with
  | some (.obj fields) =>
    .ok { item with data := some (.obj (setKey fields "__uri" (.str uri))) }
  | some .null => .error ()
  | _ => .ok { item with data := some (.obj [("__uri", .str uri)]) }

/-- `callHierarchy.onPrepare` (lines 210-221). In the result, `none` models a
JavaScript `null` response and `some items` an array response; the trailing
`?? []` turns both the no-engine `undefined` and the zero-item `null` into
`[]`. A `TypeError` thrown while attaching propagates out of the handler. -/
def chPrepare (getProject : String → Option ProjectMatch) (uri : String) (pos : Pos) :
    Except Unit (Option (List CallHierarchyItem)) :=
  let w : Option (Except Unit (Option (List CallHierarchyItem))) :=
    worker getProject uri fun vueLs =>
      match vueLs.chDoPrepare uri pos with
      | some items =>
        -- `if (items) { ... attach ... }`: an array (even `[]`) is truthy
        match items.mapM (chAttach uri) with
        | .ok attached =>
          -- `return items?.length ? items : null`
          .ok (if attached.length ≠ 0 then some attached else none)
        | .error e => .error e
      | none => .ok none  -- `undefined?.length` is undefined, hence falsy
  match w with
  | some (.ok (some items)) => .ok (some items)
  | some (.ok none) => .ok (some [])  -- null ?? [] = []
  | some (.error e) => .error e
  | none => .ok (some [])  -- undefined ?? [] = []

/-- Recovery step of `callHierarchy.onIncomingCalls` / `onOutgoingCalls`
(lines 224-225, 232-234): `data?.__uri ?? item.uri` prefers the attached
`__uri` key, falling back to the item's native uri when the key is missing or
nullish. -/
def chRecoveredUri (item : CallHierarchyItem) : JsValue :=
  match item.data with
  | some (.obj fields) =>
    match lookupKey fields "__uri" with
    | some .null => .str item.uri
    | some v => v
    | none => .str item.uri
  | _ => .str item.uri

/-- `callHierarchy.onIncomingCalls` (lines 222-230). A non-string recovered
uri matches no project (project keys are strings), so it falls through the
trailing `?? []` like the no-engine case. -/
def chIncomingCalls (getProject : String → Option ProjectMatch)
    (item : CallHierarchyItem) : List String :=
  match chRecoveredUri item with
  | .str uri =>
    ((worker getProject uri fun vueLs => vueLs.chGetIncomingCalls item).join).getD []
  | _ => []

/-- `callHierarchy.onOutgoingCalls` (lines 231-239). -/
def chOutgoingCalls (getProject : String → Option ProjectMatch)
    (item : CallHierarchyItem) : List String :=
  match chRecoveredUri item with
  | .str uri =>
    ((worker getProject uri fun vueLs => vueLs.chGetOutgoingCalls item).join).getD []
  | _ => []

/-! ## Semantic tokens handlers

The `resultProgress` channel only reports interim snapshots to the client and
does not contribute to the returned value, so it is not modelled. -/

/-- `connection.languages.semanticTokens.on` (lines 240-252): inside the
worker a nullish engine result defaults to `[]`; without an engine the whole
handler falls back to `?? buildTokens([])`. -/
def semanticTokensOn (getProject : String → Option ProjectMatch) (uri : String) : List Int :=
  (worker getProject uri fun vueLs =>
    buildTokens ((vueLs.getSemanticTokens uri none).getD [])).getD (buildTokens [])

/-- `connection.languages.semanticTokens.onRange` (lines 253-265). -/
def semanticTokensOnRange (getProject : String → Option ProjectMatch) (uri : String)
    (range : TextRange) : List Int :=
  (worker getProject uri fun vueLs =>
    buildTokens ((vueLs.getSemanticTokens uri (some range)).getD [])).getD (buildTokens [])

/-! ## Workspace symbols (`onWorkspaceSymbol`, lines 190-209)

The cancellation token is modelled by `cancelled : Nat → Bool`, the value of
`token.isCancellationRequested` at the n-th check; checks happen in loop
order, one before each engine call. -/

structure Workspace where
  projects : List LanguageService
  inferredProject : LanguageService

/-- Lines 195-196: `projects = projects.length ? projects :
[workspace.getInferredProject()]`. -/
def workspaceProjects (w : Workspace) : List LanguageService :=
  if w.projects.length ≠ 0 then w.projects else [w.inferredProject]

/-- The inner project loop of `onWorkspaceSymbol` (lines 197-205), threading
the index of the next cancellation check: `none` models the bare `return`
taken when the token is observed cancelled. -/
def symbolProjectLoop (cancelled : Nat → Bool) (query : String) :
    List LanguageService → Nat → List String → Option (List String × Nat)
  | [], n, results => some (results, n)
  | vueLs :: rest, n, results =>
    if cancelled n then none
    else symbolProjectLoop cancelled query rest (n + 1)
      (results ++ vueLs.findWorkspaceSymbols query)

/-- The outer workspace loop of `onWorkspaceSymbol` (lines 194-206). -/
def symbolWorkspaceLoop (cancelled : Nat → Bool) (query : String) :
    List Workspace → Nat → List String → Option (List String × Nat)
  | [], n, results => some (results, n)
  | w :: rest, n, results =>
    match symbolProjectLoop cancelled query (workspaceProjects w) n results with
    | none => none
    | some (results', n') => symbolWorkspaceLoop cancelled query rest n' results'

/-- `connection.onWorkspaceSymbol` (lines 190-209). -/
def onWorkspaceSymbol (workspaces : List Workspace) (cancelled : Nat → Bool)
    (query : String) : Option (List String) :=
  (symbolWorkspaceLoop cancelled query workspaces 0 []).map Prod.fst

/-! ## File rename orchestration (`onWillRenameFiles`, lines 271-329) -/

structure RenameFile where
  oldUri : String
  newUri : String
deriving DecidableEq

/-- Modelled from the spec: `vue.mergeWorkspaceEdits` lives in the
`vue-language-service` package, which is not part of this repository slice;
spec section 3 defines merging of workspace edits as document-level edit-list
concatenation into the first edit. -/
def mergeWorkspaceEdits (target : WorkspaceEdit) (rest : List WorkspaceEdit) : WorkspaceEdit :=
  rest.foldl
    (fun acc e =>
      { documentChanges :=
          match acc.documentChanges, e.documentChanges with
          | some xs, some ys => some (xs ++ ys)
          | some xs, none => some xs
          | none, ys => ys })
    target

/-- One file's step of the rename fan-out (lines 318-320): resolve the engine
from the old uri and ask it for the rename-induced edits;
`vueLs?.getEditsForFileRename(...)` is `undefined` when no engine resolves. -/
def engineStep (getProject : String → Option ProjectMatch) (f : RenameFile) :
    Except Unit (Option WorkspaceEdit) :=
  match getLanguageService getProject f.oldUri with
  | some vueLs => vueLs.getEditsForFileRename f.oldUri f.newUri
  | none => .ok none

/-- The inner `worker()` of `onWillRenameFiles` (lines 316-328): run every
file's step under `Promise.all`, drop absent results (`filter(shared.notEmpty)`),
and merge the rest into the first edit. A single rejected engine promise
rejects the whole `Promise.all`, so one failing step fails the computation. -/
def renameWorkerCompute (getProject : String → Option ProjectMatch)
    (files : List RenameFile) : Except Unit (Option WorkspaceEdit) := do
  let results ← files.mapM (engineStep getProject)
  match results.filterMap id with
  | [] => pure none
  | e :: rest => pure (some (mergeWorkspaceEdits e rest))

/-- The contribution of one file's engine to the merge: its edit when the
step succeeds with one, nothing otherwise. -/
def engineContribution (getProject : String → Option ProjectMatch) (f : RenameFile) :
    Option WorkspaceEdit :=
  match engineStep getProject f with
  | .ok v => v
  | .error _ => none

/-- The merge of the non-absent contributions of a batch, in batch order. -/
def contributionsMerge (getProject : String → Option ProjectMatch)
    (files : List RenameFile) : Option WorkspaceEdit :=
  match files.filterMap (engineContribution getProject) with
  | [] => none
  | e :: rest => some (mergeWorkspaceEdits e rest)

/-- The uri rewrite of the rename "always" path (lines 290-295) applied to
one `TextDocumentEdit` document identifier: the batch's files are scanned in
order and each comparison reads the current (possibly already rewritten)
identifier, so an identifier can be rewritten again when one file's new uri
equals a later file's old uri. On a match the version stamp becomes
`getDocumentSafely(documents, file.newUri)?.version ?? change.textDocument.version`. -/
def rewriteDocId (files : List RenameFile) (docVersion : String → Option Int)
    (td : DocId) : DocId :=
  files.foldl
    (fun td file =>
      if td.uri = file.oldUri then
        { uri := file.newUri,
          version :=
            match docVersion file.newUri with
            | some v => some v
            | none => td.version }
      else td)
    td

/-- Lines 288-297: only entries passing `vscode.TextDocumentEdit.is` are
rewritten; file operations are left untouched. -/
def rewriteChange (files : List RenameFile) (docVersion : String → Option Int) :
    DocChange → DocChange
  | .textDocumentEdit td edits => .textDocumentEdit (rewriteDocId files docVersion td) edits
  | c => c

/-- Lines 287-298: rewrite every document change of the merged edit (when the
edit has any). -/
def rewriteEdit (files : List RenameFile) (docVersion : String → Option Int)
    (edit : WorkspaceEdit) : WorkspaceEdit :=
  { documentChanges := edit.documentChanges.map (List.map (rewriteChange files docVersion)) }

/-- The module-level shared state of `project.ts` used by this feature: the
`fileRenamings` in-flight set (modelled by how many tracked promises it
holds) and the `renameFileContentCache` map. -/
structure ServerState where
  fileRenamings : Nat
  renameFileContentCache : List (String × String)
deriving DecidableEq

/-- `Map.set` on the content cache. -/
def setCacheEntry : List (String × String) → String → String → List (String × String)
  | [], k, v => [(k, v)]
  | (k', v') :: rest, k, v =>
    if k' = k then (k, v) :: rest else (k', v') :: setCacheEntry rest k v

/-- Lines 278-283: snapshot the old files' current text into the cache,
silently skipping files whose text is unavailable. -/
def snapshotContents (files : List RenameFile) (getScriptText : String → Option String)
    (cache : List (String × String)) : List (String × String) :=
  files.foldl
    (fun cache file =>
      match getScriptText file.oldUri with
      | some text => setCacheEntry cache file.oldUri text
      | none => cache)
    cache

/-- The `config === 'always'` path of `onWillRenameFiles` (lines 276-309),
returning the final shared state together with the edit passed to
`connection.workspace.applyEdit` (if any).

The promise executor runs synchronously up to `await shared.sleep(0)`, so the
content snapshot (lines 278-283) and `fileRenamings.add` (line 303) both
happen before any suspension. The cleanup continuation (lines 304-308)
awaits the tracked promise, then deletes it from the set and clears the
cache. The tracked promise is `new Promise(async resolve => ...)`: when the
async executor throws (a rejected `worker()`), `resolve` is never called and
the `Promise` constructor never observes the rejection, so the tracked
promise never settles and the cleanup continuation never runs. `applyEdit`
(line 299) is not awaited, so its outcome (`applyEditFails`) cannot reach any
of this. -/
def onWillRenameFilesAlways (getProject : String → Option ProjectMatch)
    (getScriptText : String → Option String) (docVersion : String → Option Int)
    (_applyEditFails : Bool) (files : List RenameFile) (st : ServerState) :
    ServerState × Option WorkspaceEdit :=
  let st1 : ServerState :=
    { fileRenamings := st.fileRenamings + 1,
      renameFileContentCache :=
        snapshotContents files getScriptText st.renameFileContentCache }
  match renameWorkerCompute getProject files with
  | .error _ => (st1, none)
  | .ok none =>
    ({ fileRenamings := st1.fileRenamings - 1, renameFileContentCache := [] }, none)
  | .ok (some edit) =>
    ({ fileRenamings := st1.fileRenamings - 1, renameFileContentCache := [] },
      some (rewriteEdit files docVersion edit))

/-! ## Concrete instances used by witnesses and counterexamples -/

/-- A language service all of whose capabilities yield no result. -/
def absentLs : LanguageService where
  doComplete := fun _ _ => none
  doCompletionResolve := fun _ _ => none
  doHover := fun _ _ => none
  getSignatureHelp := fun _ _ => none
  doPrepareRename := fun _ _ => none
  doRename := fun _ _ _ => none
  doCodeLens := fun _ => none
  doCodeLensResolve := fun _ => none
  doCodeActions := fun _ _ => none
  doCodeActionResolve := fun _ => none
  findReferences := fun _ _ => none
  findImplementations := fun _ _ => none
  findDefinition := fun _ _ => none
  findTypeDefinition := fun _ _ => none
  findDocumentHighlights := fun _ _ => none
  findDocumentLinks := fun _ => none
  findWorkspaceSymbols := fun _ => []
  chDoPrepare := fun _ _ => none
  chGetIncomingCalls := fun _ => none
  chGetOutgoingCalls := fun _ => none
  getSemanticTokens := fun _ _ => none
  getInlayHints := fun _ _ => none
  getEditsForFileRename := fun _ _ => .ok none
  doAutoInsert := fun _ _ => none

/-- A resolver under which every document resolves to the given service. -/
def gpAll (ls : LanguageService) : String → Option ProjectMatch :=
  fun _ => some ⟨some ⟨ls⟩⟩

/-- A resolver under which no document resolves to a project. -/
def gpNone : String → Option ProjectMatch := fun _ => none

/-- A service whose workspace-symbol search returns one fixed symbol. -/
def symbolLs (s : String) : LanguageService :=
  { absentLs with findWorkspaceSymbols := fun _ => [s] }

/-- A service whose call-hierarchy prepare succeeds with zero items. -/
def zeroPrepLs : LanguageService :=
  { absentLs with chDoPrepare := fun _ _ => some [] }

/-- A service whose rename-edit computation rejects. -/
def throwRenameLs : LanguageService :=
  { absentLs with getEditsForFileRename := fun _ _ => .error () }

/-- A service whose rename-edit computation returns the given edit. -/
def editRenameLs (e : WorkspaceEdit) : LanguageService :=
  { absentLs with getEditsForFileRename := fun _ _ => .ok (some e) }

/-- A sample workspace edit touching `file:///a.ts`. -/
def sampleEdit : WorkspaceEdit :=
  ⟨some [.textDocumentEdit ⟨"file:///a.ts", some 3⟩ [⟨((0, 0), (0, 1)), "b"⟩]]⟩

/-! ## Theorems -/

theorem worker_noEngine {T : Type} (getProject : String → Option ProjectMatch) (uri : String)
    (cb : LanguageService → T) (h : getLanguageService getProject uri = none) :
    worker getProject uri cb = none := by
  simp [worker, h]

/-- Claim C1: for every capability request on a document for which the engine
resolver yields no language service, the handler returns an absent result —
the unchanged input item for resolve-style requests — and, being a total
function of its inputs, never raises an error. -/
theorem noEngine_absent (getProject : String → Option ProjectMatch)
    (h : ∀ u, getLanguageService getProject u = none)
    (insertReplaceSupport : Option Bool) (activeSel : Option (String × Pos))
    (uri : String) (pos : Pos) (range : TextRange) (newName : String)
    (item : CompletionItem) (codeLens : CodeLens) (codeAction : CodeAction) :
    onCompletion getProject insertReplaceSupport uri pos = none ∧
    onHover getProject uri pos = none ∧
    onSignatureHelp getProject uri pos = none ∧
    onPrepareRename getProject uri pos = none ∧
    onRenameRequest getProject uri pos newName = none ∧
    onCodeLens getProject uri = none ∧
    onCodeAction getProject uri range = none ∧
    onReferences getProject uri pos = none ∧
    onImplementation getProject uri pos = none ∧
    onDefinition getProject uri pos = none ∧
    onTypeDefinition getProject uri pos = none ∧
    onDocumentHighlight getProject uri pos = none ∧
    onDocumentLinks getProject uri = none ∧
    inlayHintOn getProject uri range = none ∧
    autoInsertOn getProject uri pos = none ∧
    onCompletionResolve getProject activeSel item = item ∧
    onCodeLensResolve getProject codeLens = codeLens ∧
    onCodeActionResolve getProject codeAction = codeAction := by
  have hw : ∀ {T : Type} (u : String) (cb : LanguageService → T),
      worker getProject u cb = none := fun u cb => worker_noEngine getProject u cb (h u)
  refine ⟨?_, ?_, ?_, ?_, ?_, ?_, ?_, ?_, ?_, ?_, ?_, ?_, ?_, ?_, ?_, ?_, ?_, ?_⟩
  · simp [onCompletion, hw]
  · simp [onHover, hw]
  · simp [onSignatureHelp, hw]
  · simp [onPrepareRename, hw]
  · simp [onRenameRequest, hw]
  · simp [onCodeLens, hw]
  · simp [onCodeAction, hw]
  · simp [onReferences, hw]
  · simp [onImplementation, hw]
  · simp [onDefinition, hw]
  · simp [onTypeDefinition, hw]
  · simp [onDocumentHighlight, hw]
  · simp [onDocumentLinks, hw]
  · simp [inlayHintOn, hw]
  · simp [autoInsertOn, hw]
  · unfold onCompletionResolve
    cases hd : dataUri item.data with
    | none => rfl
    | some v =>
      by_cases ht : jsTruthy v = true
      · cases v <;> simp [ht, hw]
      · simp [ht]
  · unfold onCodeLensResolve
    cases hd : dataUri codeLens.data with
    | none => rfl
    | some v =>
      by_cases ht : jsTruthy v = true
      · cases v <;> simp [ht, hw]
      · simp [ht]
  · unfold onCodeActionResolve
    cases hd : dataUri codeAction.data with
    | none => rfl
    | some v =>
      by_cases ht : jsTruthy v = true
      · cases v <;> simp [ht, hw]
      · simp [ht]

/-- Witness for C1: a concrete dispatch with no resolvable project. -/
theorem noEngine_absent_witness :
    onHover gpNone "file:///a.vue" (0, 0) = none ∧
    onCompletionResolve gpNone none ⟨"x", none, some (.obj [("uri", .str "file:///a.vue")])⟩ =
      ⟨"x", none, some (.obj [("uri", .str "file:///a.vue")])⟩ :=
  ⟨(noEngine_absent gpNone (fun _ => rfl) none none "file:///a.vue" (0, 0)
      ((0, 0), (0, 0)) "y" ⟨"x", none, none⟩ ⟨((0, 0), (0, 0)), none⟩ ⟨"t", none⟩).2.1,
    (noEngine_absent gpNone (fun _ => rfl) none none "file:///a.vue" (0, 0)
      ((0, 0), (0, 0)) "y" ⟨"x", none, some (.obj [("uri", .str "file:///a.vue")])⟩
      ⟨((0, 0), (0, 0)), none⟩ ⟨"t", none⟩).2.2.2.2.2.2.2.2.2.2.2.2.2.2.2.1⟩

/-- Claim C6: a resolve-phase request whose input item carries no recoverable
correlation document id in its `data` field — the `uri` read yields nothing
or a falsy value — returns the input item unchanged; the handlers are total,
so no error is raised. -/
theorem resolve_noCorrelation_unchanged (getProject : String → Option ProjectMatch)
    (activeSel : Option (String × Pos)) (item : CompletionItem) (codeLens : CodeLens)
    (codeAction : CodeAction)
    (hItem : ∀ v, dataUri item.data = some v → jsTruthy v = false)
    (hLens : ∀ v, dataUri codeLens.data = some v → jsTruthy v = false)
    (hAction : ∀ v, dataUri codeAction.data = some v → jsTruthy v = false) :
    onCompletionResolve getProject activeSel item = item ∧
    onCodeLensResolve getProject codeLens = codeLens ∧
    onCodeActionResolve getProject codeAction = codeAction := by
  refine ⟨?_, ?_, ?_⟩
  · unfold onCompletionResolve
    cases hd : dataUri item.data with
    | none => rfl
    | some v => simp [hItem v hd]
  · unfold onCodeLensResolve
    cases hd : dataUri codeLens.data with
    | none => rfl
    | some v => simp [hLens v hd]
  · unfold onCodeActionResolve
    cases hd : dataUri codeAction.data with
    | none => rfl
    | some v => simp [hAction v hd]

/-- Witness for C6: items with missing, non-object and falsy correlation data. -/
theorem resolve_noCorrelation_unchanged_witness :
    onCompletionResolve (gpAll absentLs) none ⟨"x", none, none⟩ = ⟨"x", none, none⟩ ∧
    onCodeLensResolve (gpAll absentLs) ⟨((0, 0), (0, 0)), some (.num 3)⟩ =
      ⟨((0, 0), (0, 0)), some (.num 3)⟩ ∧
    onCodeActionResolve (gpAll absentLs) ⟨"t", some (.obj [("uri", .str "")])⟩ =
      ⟨"t", some (.obj [("uri", .str "")])⟩ :=
  resolve_noCorrelation_unchanged (gpAll absentLs) none ⟨"x", none, none⟩
    ⟨((0, 0), (0, 0)), some (.num 3)⟩ ⟨"t", some (.obj [("uri", .str "")])⟩
    (fun v hv => by simp [dataUri] at hv)
    (fun v hv => by simp [dataUri] at hv)
    (fun v hv => by
      simp [dataUri, lookupKey] at hv
      simp [← hv, jsTruthy])

/-- Claim C8: when the client declared no insert/replace edit support, the
completion dispatcher rewrites every item whose text edit is an
insert+replace pair into a plain replacement edit built from the insert range
and the replacement text, and changes nothing else: other edits, labels,
data, and the list's `isIncomplete` flag are untouched. -/
theorem onCompletion_downgrade (getProject : String → Option ProjectMatch)
    (insertReplaceSupport : Option Bool) (uri : String) (pos : Pos)
    (vueLs : LanguageService) (list : CompletionList)
    (hsupp : insertReplaceSupport.getD false = false)
    (hls : getLanguageService getProject uri = some vueLs)
    (hcomp : vueLs.doComplete uri pos = some list) :
    onCompletion getProject insertReplaceSupport uri pos =
      some { isIncomplete := list.isIncomplete, items := list.items.map downgradeItem } ∧
    (∀ (item : CompletionItem) (insert rr : TextRange) (newText : String),
      item.textEdit = some (.insertReplace insert rr newText) →
      downgradeItem item = { item with textEdit := some (.replace insert newText) }) ∧
    (∀ item : CompletionItem,
      (∀ (insert rr : TextRange) (newText : String),
        item.textEdit ≠ some (.insertReplace insert rr newText)) →
      downgradeItem item = item) ∧
    (∀ item : CompletionItem,
      (downgradeItem item).label = item.label ∧ (downgradeItem item).data = item.data) := by
  refine ⟨?_, ?_, ?_, ?_⟩
  · simp [onCompletion, worker, hls, hcomp, hsupp]
  · intro item insert rr newText hedit
    unfold downgradeItem
    rw [hedit]
  · intro item hne
    unfold downgradeItem
    cases he : item.textEdit with
    | none => rfl
    | some e =>
      cases e with
      | replace r t => rfl
      | insertReplace insert rr newText => exact absurd he (hne insert rr newText)
  · intro item
    unfold downgradeItem
    cases he : item.textEdit with
    | none => exact ⟨rfl, rfl⟩
    | some e => cases e <;> exact ⟨rfl, rfl⟩

/-- A service returning one completion list with an insert/replace item. -/
def completionLs : LanguageService :=
  { absentLs with
    doComplete := fun _ _ =>
      some ⟨false, [⟨"foo", some (.insertReplace ((0, 0), (0, 1)) ((0, 0), (0, 3)) "foo"), none⟩]⟩ }

/-- Witness for C8 at a client without insert/replace support. -/
theorem onCompletion_downgrade_witness :
    onCompletion (gpAll completionLs) none "file:///a.vue" (0, 0) =
      some { isIncomplete := false,
             items := [⟨"foo",
               some (.insertReplace ((0, 0), (0, 1)) ((0, 0), (0, 3)) "foo"),
               none⟩].map downgradeItem } :=
  (onCompletion_downgrade (gpAll completionLs) none "file:///a.vue" (0, 0) completionLs
    ⟨false, [⟨"foo", some (.insertReplace ((0, 0), (0, 1)) ((0, 0), (0, 3)) "foo"), none⟩]⟩
    rfl rfl rfl).1

/-! ### Workspace-symbol cancellation (C5) -/

/-- Total number of engines queried by a full (uncancelled) fan-out. -/
def totalProjects (workspaces : List Workspace) : Nat :=
  (workspaces.map fun w => (workspaceProjects w).length).sum

theorem symbolProjectLoop_cancel (cancelled : Nat → Bool) (query : String) :
    ∀ (ls : List LanguageService) (n acc_i : Nat) (acc : List String),
      n ≤ acc_i → acc_i < n + ls.length → cancelled acc_i = true →
      symbolProjectLoop cancelled query ls n acc = none := by
  intro ls
  induction ls with
  | nil =>
    intro n i acc h1 h2 _
    simp at h2
    omega
  | cons p rest ih =>
    intro n i acc h1 h2 hc
    unfold symbolProjectLoop
    by_cases hn : cancelled n = true
    · rw [if_pos hn]
    · rw [if_neg hn]
      have hne : i ≠ n := fun he => hn (he ▸ hc)
      apply ih (n + 1) i _ (by omega) (by simp at h2 ⊢; omega) hc

theorem symbolProjectLoop_counter (cancelled : Nat → Bool) (query : String) :
    ∀ (ls : List LanguageService) (n : Nat) (acc res : List String) (n' : Nat),
      symbolProjectLoop cancelled query ls n acc = some (res, n') →
      n' = n + ls.length := by
  intro ls
  induction ls with
  | nil =>
    intro n acc res n' h
    simp [symbolProjectLoop] at h
    simp [h.2]
  | cons p rest ih =>
    intro n acc res n' h
    unfold symbolProjectLoop at h
    by_cases hn : cancelled n = true
    · rw [if_pos hn] at h
      exact absurd h (by simp)
    · rw [if_neg hn] at h
      have := ih (n + 1) _ res n' h
      simp [this]
      omega

theorem symbolWorkspaceLoop_cancel (cancelled : Nat → Bool) (query : String) :
    ∀ (workspaces : List Workspace) (n i : Nat) (acc : List String),
      n ≤ i → i < n + totalProjects workspaces → cancelled i = true →
      symbolWorkspaceLoop cancelled query workspaces n acc = none := by
  intro workspaces
  induction workspaces with
  | nil =>
    intro n i acc h1 h2 _
    simp [totalProjects] at h2
    omega
  | cons w rest ih =>
    intro n i acc h1 h2 hc
    have htot : totalProjects (w :: rest) = (workspaceProjects w).length + totalProjects rest := by
      simp [totalProjects]
    unfold symbolWorkspaceLoop
    by_cases hin : i < n + (workspaceProjects w).length
    · rw [symbolProjectLoop_cancel cancelled query _ n i acc h1 hin hc]
    · cases hres : symbolProjectLoop cancelled query (workspaceProjects w) n acc with
      | none => rfl
      | some p =>
        obtain ⟨res, n'⟩ := p
        have hn' : n' = n + (workspaceProjects w).length :=
          symbolProjectLoop_counter cancelled query _ n acc res n' hres
        exact ih n' i res (by omega) (by rw [htot] at h2; omega) hc

/-- Claim C5: in the workspace-symbol fan-out, if the cancellation token is
observed as cancelled at any check preceding one of the batch's engine
queries, the handler returns `undefined` — never a partial list of results
gathered from earlier engines. -/
theorem onWorkspaceSymbol_cancelled (workspaces : List Workspace) (cancelled : Nat → Bool)
    (query : String) (i : Nat) (hi : i < totalProjects workspaces)
    (hc : cancelled i = true) :
    onWorkspaceSymbol workspaces cancelled query = none := by
  unfold onWorkspaceSymbol
  rw [symbolWorkspaceLoop_cancel cancelled query workspaces 0 i [] (Nat.zero_le i)
    (by omega) hc]
  rfl

/-- Witness for C5, the spec's own scenario: two workspaces — one with two
explicit projects, one with none (falling back to its inferred project) — and
a token cancelled before the second engine call: the result is `undefined`,
not the first engine's symbols. -/
theorem onWorkspaceSymbol_cancelled_witness :
    onWorkspaceSymbol
      [⟨[symbolLs "s1", symbolLs "s2"], symbolLs "i1"⟩, ⟨[], symbolLs "i2"⟩]
      (fun n => n == 1) "q" = none :=
  onWorkspaceSymbol_cancelled
    [⟨[symbolLs "s1", symbolLs "s2"], symbolLs "i1"⟩, ⟨[], symbolLs "i2"⟩]
    (fun n => n == 1) "q" 1
    (by simp [totalProjects, workspaceProjects, symbolLs]) rfl

/-! ### Correlation codec (C7) -/

theorem lookupKey_setKey_self (k : String) (v : JsValue) :
    ∀ fields, lookupKey (setKey fields k v) k = some v := by
  intro fields
  induction fields with
  | nil => simp [setKey, lookupKey]
  | cons kv rest ih =>
    obtain ⟨k', v'⟩ := kv
    unfold setKey
    by_cases hk : k' = k
    · rw [if_pos hk]
      simp [lookupKey]
    · rw [if_neg hk]
      unfold lookupKey
      rw [if_neg hk]
      exact ih

theorem lookupKey_setKey_ne (k k0 : String) (v : JsValue) (hne : k ≠ k0) :
    ∀ fields, lookupKey (setKey fields k0 v) k = lookupKey fields k := by
  intro fields
  induction fields with
  | nil => simp [setKey, lookupKey, Ne.symm hne]
  | cons kv rest ih =>
    obtain ⟨k', v'⟩ := kv
    unfold setKey
    by_cases hk : k' = k0
    · rw [if_pos hk]
      unfold lookupKey
      rw [if_neg fun h => hne h.symm, if_neg (hk ▸ fun h => hne h.symm)]
    · rw [if_neg hk]
      unfold lookupKey
      by_cases hk2 : k' = k
      · rw [if_pos hk2, if_pos hk2]
      · rw [if_neg hk2, if_neg hk2]
        exact ih

/-- Counterexample to C7 as stated: `null` is a JavaScript primitive, but on
an item whose `data` field is `null` the call-hierarchy attachment throws a
`TypeError` (`typeof null === 'object'` skips the re-initialisation and the
property assignment on `null` fails), so no attached item — and hence no
round trip — exists for it. -/
theorem chAttach_null_throws :
    chAttach "file:///a.vue" ⟨"f", "file:///b.vue", some JsValue.null⟩ = .error () := rfl

/-- Claim C7 (amended): the code-action codec round-trips for every prior
`data` value — merging the `uri` key into an existing object (preserving its
unrelated keys) and replacing a missing, `null` or primitive field with a
fresh `{ uri }` object; the call-hierarchy codec round-trips for every prior
`data` value except `null`, on which attachment throws a `TypeError`. -/
theorem correlation_roundtrip (d : String) (codeAction : CodeAction)
    (item : CallHierarchyItem) (hnn : item.data ≠ some JsValue.null) :
    dataUri (caAttach d codeAction).data = some (.str d) ∧
    (∃ item', chAttach d item = .ok item' ∧ chRecoveredUri item' = .str d) ∧
    (∀ (fields : List (String × JsValue)) (k : String), k ≠ "uri" →
      lookupKey (setKey fields "uri" (.str d)) k = lookupKey fields k) := by
  refine ⟨?_, ?_, ?_⟩
  · unfold caAttach
    cases hd : codeAction.data with
    | none => simp [dataUri, lookupKey]
    | some v =>
      cases v with
      | obj fields => simp [dataUri, lookupKey_setKey_self]
      | str s => simp [dataUri, lookupKey]
      | num n => simp [dataUri, lookupKey]
      | boolean b => simp [dataUri, lookupKey]
      | null => simp [dataUri, lookupKey]
  · unfold chAttach
    cases hd : item.data with
    | none => exact ⟨_, rfl, by simp [chRecoveredUri, lookupKey]⟩
    | some v =>
      cases v with
      | obj fields =>
        refine ⟨_, rfl, ?_⟩
        unfold chRecoveredUri
        simp only [lookupKey_setKey_self]
      | str s => exact ⟨_, rfl, by simp [chRecoveredUri, lookupKey]⟩
      | num n => exact ⟨_, rfl, by simp [chRecoveredUri, lookupKey]⟩
      | boolean b => exact ⟨_, rfl, by simp [chRecoveredUri, lookupKey]⟩
      | null => exact absurd hd hnn
  · intro fields k hk
    exact lookupKey_setKey_ne k "uri" (.str d) hk fields

/-- Witness for C7 (amended) on an object `data` with an unrelated key. -/
theorem correlation_roundtrip_witness :
    dataUri (caAttach "file:///a.vue" ⟨"t", some (.obj [("k", .num 1)])⟩).data =
      some (.str "file:///a.vue") :=
  (correlation_roundtrip "file:///a.vue" ⟨"t", some (.obj [("k", .num 1)])⟩
    ⟨"f", "file:///b.vue", none⟩ (by simp)).1

/-! ### No-engine fallbacks of semantic tokens and call-hierarchy prepare (C10) -/

/-- Counterexample to C10 as stated: a prepare that succeeds with zero items
does NOT return `null` (`.ok none`): the inner `null` is swallowed by the
same `?? []` that handles the no-engine case, so the handler answers with the
empty list. -/
theorem chPrepare_zeroItems_not_null :
    chPrepare (gpAll zeroPrepLs) "file:///a.vue" (0, 0) = .ok (some []) ∧
    chPrepare (gpAll zeroPrepLs) "file:///a.vue" (0, 0) ≠ .ok none :=
  ⟨rfl, fun h => nomatch h⟩

/-- Claim C10 (amended): with no resolvable engine the semantic-tokens
handlers (full and range) return the encoded empty token set
`buildTokens []` rather than an absent result, and the call-hierarchy
prepare handler returns the empty list; a prepare that succeeds with zero
items also returns the empty list (not `null`), because the inner `null` is
coalesced by the handler's `?? []` fallback. -/
theorem noEngine_tokens_prepare (getProject : String → Option ProjectMatch)
    (h : ∀ u, getLanguageService getProject u = none)
    (uri : String) (pos : Pos) (range : TextRange)
    (gp2 : String → Option ProjectMatch) (vueLs : LanguageService)
    (h2 : getLanguageService gp2 uri = some vueLs)
    (hzero : vueLs.chDoPrepare uri pos = some []) :
    semanticTokensOn getProject uri = buildTokens [] ∧
    semanticTokensOnRange getProject uri range = buildTokens [] ∧
    chPrepare getProject uri pos = .ok (some []) ∧
    chPrepare gp2 uri pos = .ok (some []) := by
  refine ⟨?_, ?_, ?_, ?_⟩
  · simp [semanticTokensOn, worker_noEngine getProject uri _ (h uri)]
  · simp [semanticTokensOnRange, worker_noEngine getProject uri _ (h uri)]
  · simp [chPrepare, worker_noEngine getProject uri _ (h uri)]
  · simp only [chPrepare, worker, h2, hzero]
    rfl

/-- Witness for C10 (amended) at concrete resolvers. -/
theorem noEngine_tokens_prepare_witness :
    semanticTokensOn gpNone "file:///a.vue" = buildTokens [] ∧
    chPrepare (gpAll zeroPrepLs) "file:///a.vue" (0, 0) = .ok (some []) :=
  ⟨(noEngine_tokens_prepare gpNone (fun _ => rfl) "file:///a.vue" (0, 0)
      ((0, 0), (0, 0)) (gpAll zeroPrepLs) zeroPrepLs rfl rfl).1,
    (noEngine_tokens_prepare gpNone (fun _ => rfl) "file:///a.vue" (0, 0)
      ((0, 0), (0, 0)) (gpAll zeroPrepLs) zeroPrepLs rfl rfl).2.2.2⟩

/-! ### Uri rewriting of the rename "always" path (C9) -/

theorem rewriteDocId_untouched (docVersion : String → Option Int) :
    ∀ (files : List RenameFile) (td : DocId),
      (∀ g ∈ files, g.oldUri ≠ td.uri) → rewriteDocId files docVersion td = td := by
  intro files
  induction files with
  | nil => intro td _; rfl
  | cons g fs ih =>
    intro td h
    unfold rewriteDocId
    rw [List.foldl_cons,
      if_neg fun he => h g (List.mem_cons_self g fs) he.symm]
    exact ih td fun g' hg' => h g' (List.mem_cons_of_mem g hg')

theorem rewriteDocId_first_match (docVersion : String → Option Int) :
    ∀ (files : List RenameFile) (td : DocId) (f : RenameFile),
      (∀ g ∈ files, ∀ g' ∈ files, g.newUri ≠ g'.oldUri) →
      files.find? (fun g => g.oldUri == td.uri) = some f →
      rewriteDocId files docVersion td =
        ⟨f.newUri,
          match docVersion f.newUri with
          | some v => some v
          | none => td.version⟩ := by
  intro files
  induction files with
  | nil =>
    intro td f _ hf
    simp [List.find?] at hf
  | cons g fs ih =>
    intro td f hdisj hf
    by_cases hg : g.oldUri = td.uri
    · have hfg : f = g := by
        rw [List.find?_cons_of_pos fs (by simpa using hg)] at hf
        exact (Option.some_inj.mp hf).symm
      subst hfg
      unfold rewriteDocId
      rw [List.foldl_cons, if_pos hg.symm]
      exact rewriteDocId_untouched docVersion fs _
        fun g' hg' he =>
          hdisj f (List.mem_cons_self f fs) g' (List.mem_cons_of_mem f hg') he.symm
    · have hf' : fs.find? (fun g' => g'.oldUri == td.uri) = some f := by
        rw [List.find?_cons_of_neg fs (by simpa using hg)] at hf
        exact hf
      unfold rewriteDocId
      rw [List.foldl_cons, if_neg fun he => hg he.symm]
      exact ih td f
        (fun a ha a' ha' =>
          hdisj a (List.mem_cons_of_mem g ha) a' (List.mem_cons_of_mem g ha')) hf'

/-- Counterexample to C9 as stated: in a batch renaming `a.ts → b.ts` AND
`b.ts → c.ts`, an edit entry identifying `a.ts` is rewritten twice — the
inner loop keeps comparing the already-rewritten identifier against later
batch entries — and ends at `c.ts`, not at its corresponding new uri `b.ts`. -/
theorem rewriteDocId_chain_counterexample :
    rewriteDocId [⟨"file:///a.ts", "file:///b.ts"⟩, ⟨"file:///b.ts", "file:///c.ts"⟩]
        (fun _ => none) ⟨"file:///a.ts", some 3⟩ =
      ⟨"file:///c.ts", some 3⟩ ∧
    rewriteDocId [⟨"file:///a.ts", "file:///b.ts"⟩, ⟨"file:///b.ts", "file:///c.ts"⟩]
        (fun _ => none) ⟨"file:///a.ts", some 3⟩ ≠
      ⟨"file:///b.ts", some 3⟩ :=
  ⟨rfl, by decide⟩

/-- Claim C9 (amended): in the rename "always" path, provided no file's new
uri equals any file's old uri (ruling out chained batches such as the
counterexample's), every text-document edit entry whose document identifier
equals an old uri of the batch is rewritten exactly once, to the new uri of
the first batch entry carrying that old uri, and its version stamp is updated
to the new document's current version when that document is retrievable, else
left unchanged; identifiers matching no old uri, and non-text-document
changes, are untouched. -/
theorem rewriteDocId_correct (files : List RenameFile) (docVersion : String → Option Int)
    (td : DocId) (f : RenameFile)
    (hdisj : ∀ g ∈ files, ∀ g' ∈ files, g.newUri ≠ g'.oldUri)
    (hfind : files.find? (fun g => g.oldUri == td.uri) = some f) :
    (rewriteDocId files docVersion td).uri = f.newUri ∧
    (rewriteDocId files docVersion td).version =
      (match docVersion f.newUri with
        | some v => some v
        | none => td.version) ∧
    (∀ td' : DocId, (∀ g ∈ files, g.oldUri ≠ td'.uri) →
      rewriteDocId files docVersion td' = td') ∧
    (∀ kind uri2 : String,
      rewriteChange files docVersion (.fileOperation kind uri2) =
        .fileOperation kind uri2) := by
  refine ⟨?_, ?_, ?_, ?_⟩
  · rw [rewriteDocId_first_match docVersion files td f hdisj hfind]
  · rw [rewriteDocId_first_match docVersion files td f hdisj hfind]
  · exact fun td' h => rewriteDocId_untouched docVersion files td' h
  · intro kind uri2
    rfl

/-- Witness for C9 (amended): renaming `a.ts → b.ts` rewrites an `a.ts` edit
entry to `b.ts`, stamping the new document's version 7. -/
theorem rewriteDocId_correct_witness :
    (rewriteDocId [⟨"file:///a.ts", "file:///b.ts"⟩]
      (fun u => if u = "file:///b.ts" then some 7 else none)
      ⟨"file:///a.ts", some 1⟩).uri = "file:///b.ts" ∧
    (rewriteDocId [⟨"file:///a.ts", "file:///b.ts"⟩]
      (fun u => if u = "file:///b.ts" then some 7 else none)
      ⟨"file:///a.ts", some 1⟩).version = some 7 :=
  ⟨(rewriteDocId_correct [⟨"file:///a.ts", "file:///b.ts"⟩]
      (fun u => if u = "file:///b.ts" then some 7 else none)
      ⟨"file:///a.ts", some 1⟩ ⟨"file:///a.ts", "file:///b.ts"⟩
      (by decide) rfl).1,
    (rewriteDocId_correct [⟨"file:///a.ts", "file:///b.ts"⟩]
      (fun u => if u = "file:///b.ts" then some 7 else none)
      ⟨"file:///a.ts", some 1⟩ ⟨"file:///a.ts", "file:///b.ts"⟩
      (by decide) rfl).2.1⟩

/-! ### Failure semantics of the rename batch (C3, C2) -/

/-- Resolver of the C3 counterexample: the engine owning `file:///a.ts`
throws on rename-edit computation; the engine owning everything else
contributes `sampleEdit`. -/
def gpMixed : String → Option ProjectMatch :=
  fun u =>
    if u = "file:///a.ts" then some ⟨some ⟨throwRenameLs⟩⟩
    else some ⟨some ⟨editRenameLs sampleEdit⟩⟩

/-- Counterexample to C3 as stated: in a two-file batch whose first engine
throws and whose second engine contributes an edit, the whole batch
computation rejects (`Promise.all` rejects with the engine's failure), so the
merged edit of the remaining engine is not produced. -/
theorem renameWorker_abort_counterexample :
    renameWorkerCompute gpMixed
        [⟨"file:///a.ts", "file:///b.ts"⟩, ⟨"file:///c.ts", "file:///d.ts"⟩] =
      .error () ∧
    renameWorkerCompute gpMixed
        [⟨"file:///a.ts", "file:///b.ts"⟩, ⟨"file:///c.ts", "file:///d.ts"⟩] ≠
      .ok (some sampleEdit) :=
  ⟨rfl, fun h => nomatch h⟩

theorem mapM_engineStep_ok (getProject : String → Option ProjectMatch) :
    ∀ files : List RenameFile,
      (∀ f ∈ files, ∃ v, engineStep getProject f = .ok v) →
      files.mapM (engineStep getProject) =
        .ok (files.map (engineContribution getProject)) := by
  intro files
  induction files with
  | nil => intro _; rfl
  | cons f fs ih =>
    intro h
    rw [List.mapM_cons]
    have hok : engineStep getProject f = .ok (engineContribution getProject f) := by
      obtain ⟨v, hv⟩ := h f (List.mem_cons_self f fs)
      unfold engineContribution
      rw [hv]
    rw [hok, ih fun g hg => h g (List.mem_cons_of_mem f hg)]
    rfl

/-- Claim C3 (amended): an engine returning an absent rename edit contributes
nothing and the batch continues — when no engine's computation throws, the
batch yields the merge of the non-absent contributions in batch order. The
tolerance covers only absent results: a throwing engine rejects the whole
batch (see the counterexample). -/
theorem renameWorker_absent_tolerated (getProject : String → Option ProjectMatch)
    (files : List RenameFile)
    (h : ∀ f ∈ files, ∃ v, engineStep getProject f = .ok v) :
    renameWorkerCompute getProject files = .ok (contributionsMerge getProject files) := by
  unfold renameWorkerCompute contributionsMerge
  rw [mapM_engineStep_ok getProject files h]
  show (match (files.map (engineContribution getProject)).filterMap id with
    | [] => pure none
    | e :: rest => pure (some (mergeWorkspaceEdits e rest))) = _
  rw [List.filterMap_map]
  simp only [Function.comp_def, id_eq]
  cases files.filterMap (engineContribution getProject) with
  | nil => rfl
  | cons e rest => rfl

/-- Resolver pairing an absent-result engine with a contributing engine. -/
def gpAbsentThenEdit : String → Option ProjectMatch :=
  fun u =>
    if u = "file:///a.ts" then some ⟨some ⟨absentLs⟩⟩
    else some ⟨some ⟨editRenameLs sampleEdit⟩⟩

/-- Witness for C3 (amended): one absent engine, one contributing engine. -/
theorem renameWorker_absent_tolerated_witness :
    renameWorkerCompute gpAbsentThenEdit
        [⟨"file:///a.ts", "file:///b.ts"⟩, ⟨"file:///c.ts", "file:///d.ts"⟩] =
      .ok (contributionsMerge gpAbsentThenEdit
        [⟨"file:///a.ts", "file:///b.ts"⟩, ⟨"file:///c.ts", "file:///d.ts"⟩]) :=
  renameWorker_absent_tolerated gpAbsentThenEdit
    [⟨"file:///a.ts", "file:///b.ts"⟩, ⟨"file:///c.ts", "file:///d.ts"⟩]
    (by
      intro f hf
      rcases List.mem_cons.mp hf with he | hf2
      · subst he
        exact ⟨none, rfl⟩
      rcases List.mem_cons.mp hf2 with he | hf3
      · subst he
        exact ⟨some sampleEdit, rfl⟩
      · exact absurd hf3 (List.not_mem_nil f))

/-- Claim C2 (code bug): with one renamed file whose engine's rename-edit
computation rejects, the tracked promise never settles, so the batch leaves
its `PendingRenaming` entry in the shared in-flight set and the content
snapshot in the cache (first conjunct), violating the no-leak invariant. When
the computation does not throw, cleanup runs, and it is the same whether the
non-awaited `applyEdit` fails or not (last two conjuncts). -/
theorem alwaysPath_leak_on_engine_failure :
    onWillRenameFilesAlways (gpAll throwRenameLs) (fun _ => some "export const a = 1")
        (fun _ => none) false [⟨"file:///a.ts", "file:///b.ts"⟩] ⟨0, []⟩ =
      (⟨1, [("file:///a.ts", "export const a = 1")]⟩, none) ∧
    (onWillRenameFilesAlways (gpAll (editRenameLs sampleEdit))
        (fun _ => some "export const a = 1") (fun _ => none) true
        [⟨"file:///a.ts", "file:///b.ts"⟩] ⟨0, []⟩).1 = ⟨0, []⟩ ∧
    (onWillRenameFilesAlways (gpAll (editRenameLs sampleEdit))
        (fun _ => some "export const a = 1") (fun _ => none) false
        [⟨"file:///a.ts", "file:///b.ts"⟩] ⟨0, []⟩).1 = ⟨0, []⟩ :=
  ⟨rfl, rfl, rfl⟩

end LanguageFeatures
